import Mathlib

/-
  Verification development for the CSS AST core (`ast.ts`):
  the AST node model, the mutable-forest walker `walk`, and the
  serializer `toCss` / `stringify`, embedded as pure Lean functions.
-/

namespace CssAst

/-- A point in source or generated text: 1-based `line`, 0-based `column`. -/
structure Location where
  line : Nat
  column : Nat
deriving DecidableEq, Repr

/-- A contiguous span of text. The source names the second field `end`;
Lean reserves that word, so it is called `stop` here. -/
structure Range where
  start : Location
  stop : Location
deriving DecidableEq, Repr

/-- A source-to-destination association; either side may be absent (`null`). -/
structure Mapping where
  source : Option Range
  destination : Option Range
deriving DecidableEq, Repr

/-- The closed AST variant (`Rule`, `Declaration`, `Comment`), each carrying its
`mappings` bookkeeping list. `Declaration.value` is an `Option String` because the
serializer tests `node.value !== undefined && node.value !== null` before printing. -/
inductive AstNode where
  | rule (selector : String) (nodes : List AstNode) (mappings : List Mapping)
  | declaration (property : String) (value : Option String) (important : Bool)
      (mappings : List Mapping)
  | comment (value : String) (mappings : List Mapping)
deriving Repr

/-- The three walker directives (`WalkAction` in the source). -/
inductive WalkAction where
  | Continue
  | Skip
  | Stop
deriving DecidableEq, Repr

/-- Result of a walk over one (sub)forest: the final node list (the source mutates
the array in place; here it is returned), the visitor's threaded state, whether this
frame returned early because the visitor said `Stop`, and the chronological list of
nodes passed to the visitor (instrumentation that observes visitor invocations). -/
structure WalkResult (σ : Type) where
  forest : List AstNode
  state : σ
  stopped : Bool
  visited : List AstNode
deriving Repr

/-- The walker of the source, embedded with explicit state passing and fuel.
A visitor is a pure function returning its new private state, the argument it
passed to `replaceWith` (`none` when `replaceWith` was not called), and its
directive (returning `undefined` in the source defaults to `Continue`; here the
visitor returns the directive explicitly).

The JS loop `for (let i = 0; ...)` with the `i--` inside `replaceWith` is
rendered as recursion on the sublist starting at the current index: after a
replacement with `ns` the loop next processes position `i` again, i.e. the
list `ns ++ rest`; without a replacement it processes `rest`. Exactly as in the
source, the recursion into children uses the `node` binding captured before any
replacement, and the `Stop` status of a recursive call is not consulted by the
caller. `fuel` bounds the number of visits (the source may loop forever when a
visitor keeps replacing); `none` means fuel ran out. -/
def walk {σ : Type} (visit : σ → AstNode → σ × Option (List AstNode) × WalkAction)
    (fuel : Nat) (ast : List AstNode) (s : σ) : Option (WalkResult σ) :=
  match ast with
  | [] => some ⟨[], s, false, []⟩
  | node :: rest =>
    match fuel with
    | 0 => none
    | fuel + 1 =>
      let r := visit s node
      let s' := r.1
      let repl := r.2.1
      match r.2.2 with
      | WalkAction.Stop =>
        -- `replaceWith` splices before the `return`; the rest stays untouched.
        some ⟨repl.getD [node] ++ rest, s', true, [node]⟩
      | WalkAction.Skip =>
        match repl with
        | none =>
          match walk visit fuel rest s' with
          | none => none
          | some w => some ⟨node :: w.forest, w.state, w.stopped, node :: w.visited⟩
        | some ns =>
          match walk visit fuel (ns ++ rest) s' with
          | none => none
          | some w => some ⟨w.forest, w.state, w.stopped, node :: w.visited⟩
      | WalkAction.Continue =>
        match node with
        | AstNode.rule selector children m =>
          -- `walk(node.nodes, visit)`: descends into the captured node's children,
          -- ignores the recursive call's Stop status, and the mutated child array
          -- stays attached to this node (visible only if the node was not replaced).
          match walk visit fuel children s' with
          | none => none
          | some c =>
            match repl with
            | none =>
              match walk visit fuel rest c.state with
              | none => none
              | some w =>
                some ⟨AstNode.rule selector c.forest m :: w.forest, w.state, w.stopped,
                      node :: c.visited ++ w.visited⟩
            | some ns =>
              match walk visit fuel (ns ++ rest) c.state with
              | none => none
              | some w => some ⟨w.forest, w.state, w.stopped, node :: c.visited ++ w.visited⟩
        | _ =>
          match repl with
          | none =>
            match walk visit fuel rest s' with
            | none => none
            | some w => some ⟨node :: w.forest, w.state, w.stopped, node :: w.visited⟩
          | some ns =>
            match walk visit fuel (ns ++ rest) s' with
            | none => none
            | some w => some ⟨w.forest, w.state, w.stopped, node :: w.visited⟩

mutual

/-- Number of nodes in a subtree (the node itself plus all descendants). -/
def countNode : AstNode → Nat
  | AstNode.rule _ nodes _ => 1 + countList nodes
  | AstNode.declaration _ _ _ _ => 1
  | AstNode.comment _ _ => 1

/-- Number of nodes in a forest. -/
def countList : List AstNode → Nat
  | [] => 0
  | n :: rest => countNode n + countList rest

end

mutual

/-- Depth-first pre-order listing of a subtree: the node, then its descendants. -/
def preorderNode : AstNode → List AstNode
  | AstNode.rule s nodes m => AstNode.rule s nodes m :: preorderList nodes
  | AstNode.declaration p v i m => [AstNode.declaration p v i m]
  | AstNode.comment v m => [AstNode.comment v m]

/-- Depth-first pre-order listing of a forest, in sequence order. -/
def preorderList : List AstNode → List AstNode
  | [] => []
  | n :: rest => preorderNode n ++ preorderList rest

end

/-- `'  '.repeat(depth)`: two spaces per nesting level. -/
def indentOf : Nat → String
  | 0 => ""
  | d + 1 => "  " ++ indentOf d

/-- Number of newline characters in a string. This models the source expression
`value.split('\n').length - 1`: splitting on a separator yields one more piece
than there are separator occurrences. -/
def countNl (s : String) : Nat := s.data.count '\n'

/-- Models the JavaScript test `s[0] === c` (false on the empty string). -/
def firstCharIs (s : String) (c : Char) : Bool :=
  match s.data with
  | [] => false
  | a :: _ => a == c

/-- Models `s.startsWith(p)`. -/
def startsWithStr (s p : String) : Bool := p.data.isPrefixOf s.data

/-- The serializer state captured by the closures inside `toCss`: the `atRoots`
hoist buffer, the `seenAtProperties` dedup set (a set of selector strings,
modelled as a list queried by membership), the optional running output cursor
`location`, and `emitted`, the chronological record of the `node.mappings.push`
calls performed during this `toCss` invocation (the source pushes each record
onto the node being emitted; the order of pushes is emission order). -/
structure SerState where
  atRoots : List AstNode
  seenAtProperties : List String
  location : Option Location
  emitted : List Mapping
deriving Repr

/-- `node.mappings.push({source: null, destination: {start: {line, column: indent.length},
end: {line, column: indent.length}}})`, performed only when `location` is set. -/
def recordMapping (st : SerState) (indentLen : Nat) : SerState :=
  match st.location with
  | none => st
  | some loc =>
    { st with emitted := st.emitted ++
        [⟨none, some ⟨⟨loc.line, indentLen⟩, ⟨loc.line, indentLen⟩⟩⟩] }

/-- `location.line += k`, performed only when `location` is set. -/
def advanceLines (st : SerState) (k : Nat) : SerState :=
  match st.location with
  | none => st
  | some loc => { st with location := some ⟨loc.line + k, loc.column⟩ }

mutual

/-- The inner `stringifyAll` of `toCss`: concatenates the rendering of each child. -/
def stringifyAll (nodes : List AstNode) (depth : Nat) (st : SerState) : String × SerState :=
  match nodes with
  | [] => ("", st)
  | child :: rest =>
    let r1 := stringify child depth st
    let r2 := stringifyAll rest depth r1.2
    (r1.1 ++ r2.1, r2.2)

/-- The inner `stringify` of `toCss`, translated branch for branch:
`@at-root` hoisting, `@tailwind utilities` inlining, statement-style empty
at-rules, depth-0 `@property` deduplication, ordinary rule blocks, comments,
and declarations with the `--tw-sort` / absent-value suppression. -/
def stringify (node : AstNode) (depth : Nat) (st : SerState) : String × SerState :=
  let indent := indentOf depth
  match node with
  | AstNode.rule selector nodes _ =>
    -- Pull out `@at-root` rules to append later (`atRoots = atRoots.concat(node.nodes)`)
    if selector = "@at-root" then
      ("", { st with atRoots := st.atRoots ++ nodes })
    else if selector = "@tailwind utilities" then
      stringifyAll nodes depth st
    -- Print at-rules without nodes with a `;` instead of an empty block.
    else if firstCharIs selector '@' && nodes.isEmpty then
      (indent ++ selector ++ ";\n", advanceLines (recordMapping st indent.length) 1)
    -- Don't output duplicate `@property` rules (depth-0 only).
    else if firstCharIs selector '@' && startsWithStr selector "@property " && depth == 0
        && st.seenAtProperties.contains selector then
      ("", st)
    else
      let st0 :=
        if firstCharIs selector '@' && startsWithStr selector "@property " && depth == 0 then
          { st with seenAtProperties := selector :: st.seenAtProperties }
        else st
      let st1 := advanceLines (recordMapping st0 indent.length) 1
      let r := stringifyAll nodes (depth + 1) st1
      (indent ++ selector ++ " \x7b\n" ++ r.1 ++ indent ++ "\x7d\n", advanceLines r.2 1)
  | AstNode.comment value _ =>
    (indent ++ "/*" ++ value ++ "*/\n",
     advanceLines (recordMapping st indent.length) (1 + countNl value))
  | AstNode.declaration property value important _ =>
    -- `else if (node.property !== '--tw-sort' && node.value !== undefined && ...)`
    match value with
    | some v =>
      if property = "--tw-sort" then ("", st)
      else
        (indent ++ property ++ ": " ++ v ++ (if important then "!important" else "") ++ ";\n",
         advanceLines (recordMapping st indent.length) (1 + countNl v))
    | none => ("", st)

end

/-- `toCss`: fresh `atRoots` buffer, fresh `seenAtProperties` set and (when tracking)
a fresh cursor `{line: 1, column: 0}` are created per invocation; the main forest is
rendered at depth 0 and then the hoist buffer *as it stands after the first pass* is
rendered at depth 0 (`stringifyAll(atRoots, ...)` iterates that snapshot; nodes hoisted
while flushing land in the state's buffer but are not rendered, exactly as in the
source, where the flush loop iterates the array `atRoots` pointed to at call time). -/
def toCss (ast : List AstNode) (trackDestination : Bool) : String × SerState :=
  let st0 : SerState :=
    { atRoots := [], seenAtProperties := [],
      location := if trackDestination then some ⟨1, 0⟩ else none,
      emitted := [] }
  let r1 := stringifyAll ast 0 st0
  let r2 := stringifyAll r1.2.atRoots 0 r1.2
  (r1.1 ++ r2.1, r2.2)

/-- Shorthand for a non-important declaration with a present value and no mappings. -/
def exDecl (p v : String) : AstNode := AstNode.declaration p (some v) false []

/-- A `@property` rule with one child, used in the dedup examples. -/
def propFoo : AstNode := AstNode.rule "@property --foo" [exDecl "inherits" "false"] []

/-- Visitor that counts visits and returns `Stop` on the third one. -/
def visitCnt3 (s : Nat) (_ : AstNode) : Nat × Option (List AstNode) × WalkAction :=
  (s + 1, none, if s + 1 = 3 then WalkAction.Stop else WalkAction.Continue)

/-- A forest of 10 nodes: a rule with 8 declaration children, then a sibling. -/
def ast10 : List AstNode :=
  [AstNode.rule ".r"
    [exDecl "d1" "1", exDecl "d2" "2", exDecl "d3" "3", exDecl "d4" "4",
     exDecl "d5" "5", exDecl "d6" "6", exDecl "d7" "7", exDecl "d8" "8"] [],
   exDecl "d10" "10"]

/-- A flat forest of 10 declarations. -/
def flat10 : List AstNode :=
  [exDecl "d1" "1", exDecl "d2" "2", exDecl "d3" "3", exDecl "d4" "4", exDecl "d5" "5",
   exDecl "d6" "6", exDecl "d7" "7", exDecl "d8" "8", exDecl "d9" "9", exDecl "d10" "10"]

/-- Visitor that replaces the rule `.a` with a fresh declaration and continues. -/
def visitC3r (s : Unit) (n : AstNode) : Unit × Option (List AstNode) × WalkAction :=
  match n with
  | AstNode.rule ".a" _ _ => (s, some [exDecl "x" "y"], WalkAction.Continue)
  | _ => (s, none, WalkAction.Continue)

/-- Visitor that replaces the declaration `a` with two declarations the first time
(state flag records whether the replacement already happened), else continues. -/
def visitC4 (s : Bool) (n : AstNode) : Bool × Option (List AstNode) × WalkAction :=
  match n with
  | AstNode.declaration p _ _ _ =>
    if !s && (p == "a") then (true, some [exDecl "b" "2", exDecl "c" "3"], WalkAction.Continue)
    else (s, none, WalkAction.Continue)
  | _ => (s, none, WalkAction.Continue)

/-- Visitor that deletes the declaration `a` by replacing it with the empty sequence. -/
def visitDel (s : Unit) (n : AstNode) : Unit × Option (List AstNode) × WalkAction :=
  match n with
  | AstNode.declaration p _ _ _ =>
    if p == "a" then (s, some [], WalkAction.Continue) else (s, none, WalkAction.Continue)
  | _ => (s, none, WalkAction.Continue)

/-- Visitor that rewrites `a` to `b` and `b` to `c`: a replacement whose output is
itself replaced when it is re-visited. -/
def visitChain (s : Unit) (n : AstNode) : Unit × Option (List AstNode) × WalkAction :=
  match n with
  | AstNode.declaration p _ _ _ =>
    if p == "a" then (s, some [exDecl "b" "2"], WalkAction.Continue)
    else if p == "b" then (s, some [exDecl "c" "3"], WalkAction.Continue)
    else (s, none, WalkAction.Continue)
  | _ => (s, none, WalkAction.Continue)

/-- Visitor that only counts its invocations. -/
def visitCount (s : Nat) (_ : AstNode) : Nat × Option (List AstNode) × WalkAction :=
  (s + 1, none, WalkAction.Continue)

/-- A small mixed forest used to instantiate the general walk theorem. -/
def exForest : List AstNode :=
  [AstNode.rule ".a" [exDecl "color" "red"] [], AstNode.comment "hi" []]

mutual

/-- Erase the `mappings` bookkeeping of a subtree, leaving all other fields intact. -/
def stripNode : AstNode → AstNode
  | AstNode.rule s nodes _ => AstNode.rule s (stripList nodes) []
  | AstNode.declaration p v i _ => AstNode.declaration p v i []
  | AstNode.comment v _ => AstNode.comment v []

/-- Erase the `mappings` bookkeeping of every node of a forest. -/
def stripList : List AstNode → List AstNode
  | [] => []
  | n :: rest => stripNode n :: stripList rest

end

/-- Erase the `mappings` bookkeeping of the nodes held in the hoist buffer. -/
def stripState (st : SerState) : SerState :=
  { st with atRoots := stripList st.atRoots }

/-- Every subtree contains at least its root node. -/
theorem countNode_pos (n : AstNode) : 1 ≤ countNode n := by
  cases n <;> simp [countNode]

/-- C1. On a forest of 10 nodes whose first member is a rule with 8 children, a
visitor that returns `Stop` on its 3rd invocation does NOT end the whole walk:
the nested frame returns, the ancestor loop continues, and a 4th node (`d10`) is
still visited (the overall walk even finishes unstopped). On a flat forest of 10
nodes the claimed behaviour — exactly 3 visits — does hold, because there is no
ancestor frame to continue. This contradicts the `Stop the walk entirely`
documentation of `WalkAction.Stop`: the recursive call `walk(node.nodes, visit)`
discards the `Stop` status instead of propagating it. -/
theorem stop_in_nested_frame_does_not_stop_walk :
    countList ast10 = 10
    ∧ walk visitCnt3 20 ast10 0 =
        some ⟨ast10, 4, false,
          [AstNode.rule ".r"
            [exDecl "d1" "1", exDecl "d2" "2", exDecl "d3" "3", exDecl "d4" "4",
             exDecl "d5" "5", exDecl "d6" "6", exDecl "d7" "7", exDecl "d8" "8"] [],
           exDecl "d1" "1", exDecl "d2" "2", exDecl "d10" "10"]⟩
    ∧ walk visitCnt3 20 flat10 0 =
        some ⟨flat10, 3, true, [exDecl "d1" "1", exDecl "d2" "2", exDecl "d3" "3"]⟩ :=
  ⟨rfl, rfl, rfl⟩

/-- C2 counterexample. A forest consisting of one `@at-root` rule whose only child
is again an `@at-root` rule holding `color: red` serializes to the EMPTY string:
the inner rule is re-hoisted during the flush pass into the buffer, but only one
flush pass exists, so — contrary to the claim that nested `@at-root` rules inside
hoisted content are "flushed recursively at the end" — `color: red;` never
reaches the output. -/
theorem nested_at_root_in_hoist_not_flushed :
    (toCss [AstNode.rule "@at-root"
              [AstNode.rule "@at-root" [exDecl "color" "red"] []] []] false).1 = "" :=
  rfl

/-- C2 amended. `@at-root` children are hoisted and rendered after all normal
top-level content at depth 0 in encounter order; `@property` rules inside the
hoisted content are still governed by the dedup set of the same invocation; and a
nested `@at-root` rule inside hoisted content is re-hoisted into the buffer
during the flush pass but its children are never rendered, because only one
flush pass occurs. -/
theorem at_root_hoisting_amended :
    (toCss [AstNode.rule "@at-root" [exDecl "color" "red"] [],
            AstNode.rule ".a" [exDecl "color" "blue"] []] false).1
      = ".a \x7b\n  color: blue;\n\x7d\ncolor: red;\n"
    ∧ (toCss [AstNode.rule "@at-root" [exDecl "a" "1"] [],
              AstNode.rule ".x" [] [],
              AstNode.rule "@at-root" [exDecl "b" "2"] []] false).1
      = ".x \x7b\n\x7d\na: 1;\nb: 2;\n"
    ∧ (toCss [AstNode.rule "@at-root"
                [exDecl "a" "1", AstNode.rule "@at-root" [exDecl "b" "2"] []] []] false)
      = ("a: 1;\n",
         ⟨[exDecl "a" "1", AstNode.rule "@at-root" [exDecl "b" "2"] [], exDecl "b" "2"],
          [], none, []⟩)
    ∧ (toCss [propFoo, AstNode.rule "@at-root" [propFoo] []] false).1
      = "@property --foo \x7b\n  inherits: false;\n\x7d\n" :=
  ⟨rfl, rfl, rfl, rfl⟩

/-- C4. `replaceWith` splices the given nodes in place of the current node
preserving sibling order, an empty sequence deletes the node, and traversal
re-visits starting at the spliced position: replacing declaration `a` with `b, c`
once yields the final sequence `[b, c, e]` with visit trace `[a, b, c, e]` (each
inserted node visited exactly once after insertion, before the walk advances to
the untouched sibling `e`); a replacement chain `a → b → c` shows inserted nodes
can themselves trigger further replacement recursively. -/
theorem replaceWith_splice_and_revisit :
    walk visitC4 10 [exDecl "a" "1", exDecl "e" "5"] false =
      some ⟨[exDecl "b" "2", exDecl "c" "3", exDecl "e" "5"], true, false,
            [exDecl "a" "1", exDecl "b" "2", exDecl "c" "3", exDecl "e" "5"]⟩
    ∧ walk visitDel 10 [exDecl "a" "1", exDecl "e" "5"] () =
      some ⟨[exDecl "e" "5"], (), false, [exDecl "a" "1", exDecl "e" "5"]⟩
    ∧ walk visitChain 10 [exDecl "a" "1"] () =
      some ⟨[exDecl "c" "3"], (), false, [exDecl "a" "1", exDecl "b" "2", exDecl "c" "3"]⟩ :=
  ⟨rfl, rfl, rfl⟩

/-- C6 counterexample. Two depth-0 childless rules with the identical selector
`@property --foo`: the second is emitted even though a rule with the exact same
selector string was already emitted in the same invocation, contradicting the
claim that any depth-0 `@property `-selector rule is suppressed in that case.
(Childless at-rules take the statement-style branch before the dedup check.) -/
theorem childless_at_property_duplicate_emitted :
    (toCss [AstNode.rule "@property --foo" [] [],
            AstNode.rule "@property --foo" [] []] false).1
      = "@property --foo;\n@property --foo;\n" :=
  rfl

/-- C5. For every forest and every visitor that never calls `replaceWith` and
always directs `Continue`, `walk` (given fuel at least the node count) invokes
the visitor exactly once per node, in depth-first pre-order — sequence order at
each level, a rule before its children — leaves the forest unchanged, does not
stop early, and threads the visitor state as a fold over that pre-order. -/
theorem walk_visits_each_node_once_in_preorder {σ : Type}
    (visit : σ → AstNode → σ × Option (List AstNode) × WalkAction)
    (h : ∀ s n, (visit s n).2.1 = none ∧ (visit s n).2.2 = WalkAction.Continue)
    (fuel : Nat) :
    ∀ (l : List AstNode) (s : σ), countList l ≤ fuel →
      walk visit fuel l s =
        some ⟨l, (preorderList l).foldl (fun t n => (visit t n).1) s, false, preorderList l⟩
        ∧ (preorderList l).length = countList l := by
  induction fuel with
  | zero =>
    intro l s hl
    cases l with
    | nil => exact ⟨rfl, rfl⟩
    | cons n rest =>
      exfalso
      have hp := countNode_pos n
      simp [countList] at hl
      omega
  | succ f ih =>
    intro l s hl
    cases l with
    | nil => exact ⟨rfl, rfl⟩
    | cons n rest =>
      obtain ⟨h1, h2⟩ := h s n
      cases n with
      | rule sel ch m =>
        have hch : countList ch ≤ f := by
          simp [countList, countNode] at hl; omega
        have hrest : countList rest ≤ f := by
          simp [countList, countNode] at hl; omega
        obtain ⟨ihc1, ihc2⟩ := ih ch ((visit s (AstNode.rule sel ch m)).1) hch
        obtain ⟨ihr1, ihr2⟩ :=
          ih rest
            ((preorderList ch).foldl (fun t n => (visit t n).1)
              ((visit s (AstNode.rule sel ch m)).1)) hrest
        refine ⟨?_, ?_⟩
        · simp only [walk, h1, h2, ihc1, ihr1]
          simp [preorderList, preorderNode, List.foldl_append]
        · simp [preorderList, preorderNode, countList, countNode, ihc2, ihr2]
          omega
      | declaration p v i m =>
        have hrest : countList rest ≤ f := by
          simp [countList, countNode] at hl; omega
        obtain ⟨ihr1, ihr2⟩ := ih rest ((visit s (AstNode.declaration p v i m)).1) hrest
        refine ⟨?_, ?_⟩
        · simp only [walk, h1, h2, ihr1]
          simp [preorderList, preorderNode]
        · simp [preorderList, preorderNode, countList, countNode, ihr2]
          omega
      | comment v m =>
        have hrest : countList rest ≤ f := by
          simp [countList, countNode] at hl; omega
        obtain ⟨ihr1, ihr2⟩ := ih rest ((visit s (AstNode.comment v m)).1) hrest
        refine ⟨?_, ?_⟩
        · simp only [walk, h1, h2, ihr1]
          simp [preorderList, preorderNode]
        · simp [preorderList, preorderNode, countList, countNode, ihr2]
          omega

/-- C5 witness: the general theorem applied to the concrete counting visitor on a
3-node forest: 3 visits, in pre-order, forest unchanged, not stopped. -/
theorem walk_visits_each_node_once_in_preorder_witness :
    countList exForest ≤ 9
    ∧ walk visitCount 9 exForest 0 = some ⟨exForest, 3, false, preorderList exForest⟩ :=
  ⟨by decide,
   by
     have hgen :=
       (walk_visits_each_node_once_in_preorder visitCount
         (fun s n => ⟨rfl, rfl⟩) 9 exForest 0 (by decide)).1
     rw [hgen]
     rfl⟩

/-- A selector that starts with `@property ` in particular starts with `@`. -/
theorem firstChar_of_atProperty (s : String) (h : startsWithStr s "@property " = true) :
    firstCharIs s '@' = true := by
  unfold startsWithStr at h
  unfold firstCharIs
  cases hd : s.data with
  | nil => rw [hd] at h; simp [List.isPrefixOf] at h
  | cons a as =>
    rw [hd] at h
    rw [show "@property ".data = '@' :: "property ".data from rfl] at h
    simp [List.isPrefixOf] at h
    have ha := h.1
    subst ha
    rfl

/-- A selector that starts with `@property ` is neither of the two special literals. -/
theorem atProperty_not_special (s : String) (h : startsWithStr s "@property " = true) :
    ¬ (s = "@at-root") ∧ ¬ (s = "@tailwind utilities") := by
  constructor
  · intro he; rw [he] at h; exact absurd h (by decide)
  · intro he; rw [he] at h; exact absurd h (by decide)

/-- C6 amended. Depth-0 deduplication of `@property ` rules applies to rules that
reach the dedup check, i.e. rules with a nonempty child list: such a rule whose
selector is already in the seen set is suppressed entirely (no output text, no
mapping, state untouched); otherwise its selector is marked as seen and the rule
is emitted as a normal block; `@property` rules nested at depth greater than 0
are never deduplicated. (Childless `@property` rules take the statement-style
at-rule branch first and bypass the dedup machinery — see the counterexample.) -/
theorem at_property_dedup_amended :
    (∀ (sel : String) (ch : List AstNode) (m : List Mapping) (st : SerState),
        startsWithStr sel "@property " = true → ch ≠ [] →
        st.seenAtProperties.contains sel = true →
        stringify (AstNode.rule sel ch m) 0 st = ("", st))
    ∧ (toCss [propFoo, propFoo] false).1 = "@property --foo \x7b\n  inherits: false;\n\x7d\n"
    ∧ ((toCss [propFoo, propFoo] false).2).seenAtProperties = ["@property --foo"]
    ∧ (toCss [propFoo, AstNode.rule ".x" [propFoo] []] false).1
      = "@property --foo \x7b\n  inherits: false;\n\x7d\n.x \x7b\n  @property --foo \x7b\n    inherits: false;\n  \x7d\n\x7d\n" := by
  refine ⟨?_, rfl, rfl, rfl⟩
  intro sel ch m st h hch hseen
  obtain ⟨hroot, hutil⟩ := atProperty_not_special sel h
  have hfirst := firstChar_of_atProperty sel h
  have hempty : ch.isEmpty = false := by cases ch with
    | nil => exact absurd rfl hch
    | cons a as => rfl
  have hmem : sel ∈ st.seenAtProperties := by simpa using hseen
  simp [stringify, hroot, hutil, hempty, hfirst, h, hmem]

/-- C6 witness: a depth-0 `@property --bar` rule with one child and a seen set
already containing that selector is suppressed: empty output, state unchanged. -/
theorem at_property_dedup_amended_witness :
    (startsWithStr "@property --bar" "@property " = true
      ∧ ([exDecl "inherits" "false"] : List AstNode) ≠ []
      ∧ ((⟨[], ["@property --bar"], none, []⟩ : SerState)).seenAtProperties.contains
          "@property --bar" = true)
    ∧ stringify (AstNode.rule "@property --bar" [exDecl "inherits" "false"] []) 0
        ⟨[], ["@property --bar"], none, []⟩
      = ("", ⟨[], ["@property --bar"], none, []⟩) :=
  ⟨⟨by decide, by simp, by decide⟩,
   at_property_dedup_amended.1 "@property --bar" [exDecl "inherits" "false"] []
     ⟨[], ["@property --bar"], none, []⟩ (by decide) (by simp) (by decide)⟩

/-- C10. A depth-0 rule whose selector starts with `@property ` but whose child
list is empty takes the statement-style at-rule branch — `<selector>;` on its own
line — before the dedup check is reached: the serializer state (in particular the
seen set) is untouched, regardless of what the seen set already contains; hence
every duplicate of such a childless rule is emitted rather than suppressed, and
nothing is ever added to the seen set for it (the concrete run of two duplicates
ends with an empty seen set and both statements in the output). -/
theorem childless_at_property_bypasses_dedup :
    (∀ (sel : String) (m : List Mapping) (st : SerState),
        startsWithStr sel "@property " = true → st.location = none →
        stringify (AstNode.rule sel [] m) 0 st = (indentOf 0 ++ sel ++ ";\n", st))
    ∧ (toCss [AstNode.rule "@property --foo" [] [],
              AstNode.rule "@property --foo" [] []] false)
      = ("@property --foo;\n@property --foo;\n", ⟨[], [], none, []⟩) := by
  refine ⟨?_, rfl⟩
  intro sel m st h hloc
  obtain ⟨hroot, hutil⟩ := atProperty_not_special sel h
  have hfirst := firstChar_of_atProperty sel h
  simp [stringify, hroot, hutil, hfirst, recordMapping, advanceLines, hloc]

/-- C10 witness: a childless `@property --baz` rule whose selector is ALREADY in
the seen set is still emitted as a statement, with the state unchanged. -/
theorem childless_at_property_bypasses_dedup_witness :
    (startsWithStr "@property --baz" "@property " = true
      ∧ ((⟨[], ["@property --baz"], none, []⟩ : SerState)).location = none)
    ∧ stringify (AstNode.rule "@property --baz" [] []) 0 ⟨[], ["@property --baz"], none, []⟩
      = (indentOf 0 ++ "@property --baz" ++ ";\n", ⟨[], ["@property --baz"], none, []⟩) :=
  ⟨⟨by decide, rfl⟩,
   childless_at_property_bypasses_dedup.1 "@property --baz" []
     ⟨[], ["@property --baz"], none, []⟩ (by decide) rfl⟩

/-- C3 counterexample. A visitor that replaces the rule `.a` (whose only child is
the declaration `c`) and returns `Continue` still has the walk descend into the
REMOVED rule's child list: the visit trace contains `c`, the child of a node that
was removed by `replaceWith` during the very visit — contradicting the claim that
such a child list is never descended into. -/
theorem removed_node_children_visited :
    walk visitC3r 10 [AstNode.rule ".a" [exDecl "c" "v"] []] () =
      some ⟨[exDecl "x" "y"], (), false,
            [AstNode.rule ".a" [exDecl "c" "v"] [], exDecl "c" "v", exDecl "x" "y"]⟩
    ∧ exDecl "c" "v"
        ∈ [AstNode.rule ".a" [exDecl "c" "v"] [], exDecl "c" "v", exDecl "x" "y"] :=
  ⟨rfl, List.mem_cons_of_mem _ (List.mem_cons_self _ _)⟩

/-- C3 amended. Recursion into children happens only for Rule nodes and only when
the directive is `Continue` (`Skip` moves to the next sibling without descending,
`Stop` returns at once), but the descent uses the child list of the node that was
passed to the visitor — the `node` binding captured before any replacement: a
rule removed by `replaceWith` in the same visit still has its (now detached)
child list descended into before the walk re-visits the spliced-in nodes; an
unreplaced rule keeps the (walk-mutated) child list at its position. Non-rule
nodes are never descended into. -/
theorem walk_descend_semantics_amended {σ : Type}
    (visit : σ → AstNode → σ × Option (List AstNode) × WalkAction)
    (fuel : Nat) (s s' : σ) (rest : List AstNode) :
    (∀ n, visit s n = (s', none, WalkAction.Skip) →
      walk visit (fuel + 1) (n :: rest) s =
        (walk visit fuel rest s').map
          (fun w => WalkResult.mk (n :: w.forest) w.state w.stopped (n :: w.visited)))
    ∧ (∀ n, visit s n = (s', none, WalkAction.Stop) →
      walk visit (fuel + 1) (n :: rest) s = some ⟨n :: rest, s', true, [n]⟩)
    ∧ (∀ sel ch m ns ch' s2 st2 tr2,
      visit s (AstNode.rule sel ch m) = (s', some ns, WalkAction.Continue) →
      walk visit fuel ch s' = some ⟨ch', s2, st2, tr2⟩ →
      walk visit (fuel + 1) (AstNode.rule sel ch m :: rest) s =
        (walk visit fuel (ns ++ rest) s2).map
          (fun w => WalkResult.mk w.forest w.state w.stopped
            (AstNode.rule sel ch m :: tr2 ++ w.visited)))
    ∧ (∀ sel ch m ch' s2 st2 tr2,
      visit s (AstNode.rule sel ch m) = (s', none, WalkAction.Continue) →
      walk visit fuel ch s' = some ⟨ch', s2, st2, tr2⟩ →
      walk visit (fuel + 1) (AstNode.rule sel ch m :: rest) s =
        (walk visit fuel rest s2).map
          (fun w => WalkResult.mk (AstNode.rule sel ch' m :: w.forest) w.state w.stopped
            (AstNode.rule sel ch m :: tr2 ++ w.visited)))
    ∧ (∀ p v i m ns,
      visit s (AstNode.declaration p v i m) = (s', some ns, WalkAction.Continue) →
      walk visit (fuel + 1) (AstNode.declaration p v i m :: rest) s =
        (walk visit fuel (ns ++ rest) s').map
          (fun w => WalkResult.mk w.forest w.state w.stopped
            (AstNode.declaration p v i m :: w.visited))) := by
  refine ⟨?_, ?_, ?_, ?_, ?_⟩
  · intro n hv
    cases ho : walk visit fuel rest s' <;> simp [walk, hv, ho]
  · intro n hv
    simp [walk, hv]
  · intro sel ch m ns ch' s2 st2 tr2 hv hch
    cases ho : walk visit fuel (ns ++ rest) s2 <;> simp [walk, hv, hch, ho]
  · intro sel ch m ch' s2 st2 tr2 hv hch
    cases ho : walk visit fuel rest s2 <;> simp [walk, hv, hch, ho]
  · intro p v i m ns hv
    cases ho : walk visit fuel (ns ++ rest) s' <;> simp [walk, hv, ho]

/-- C3 witness: the replaced-rule conjunct applied to the concrete visitor that
replaces `.a`, showing the detached child `c` is visited between the rule and the
replacement node `x`. -/
theorem walk_descend_semantics_amended_witness :
    (visitC3r () (AstNode.rule ".a" [exDecl "c" "v"] [])
        = ((), some [exDecl "x" "y"], WalkAction.Continue)
      ∧ walk visitC3r 9 [exDecl "c" "v"] ()
        = some ⟨[exDecl "c" "v"], (), false, [exDecl "c" "v"]⟩)
    ∧ walk visitC3r 10 [AstNode.rule ".a" [exDecl "c" "v"] []] () =
        some ⟨[exDecl "x" "y"], (), false,
              [AstNode.rule ".a" [exDecl "c" "v"] [], exDecl "c" "v", exDecl "x" "y"]⟩ :=
  ⟨⟨rfl, rfl⟩,
   by
     have hgen :=
       (walk_descend_semantics_amended visitC3r 9 () () []).2.2.1 ".a" [exDecl "c" "v"] []
         [exDecl "x" "y"] [exDecl "c" "v"] () false [exDecl "c" "v"] rfl rfl
     rw [hgen]
     rfl⟩

/-- C7. With destination tracking enabled the serializer threads a cursor that
starts at line 1, column 0, and appends exactly one mapping per emitted node —
source absent, destination a zero-width range at the cursor's line with column
equal to the indentation width — then advances the line counter by the number of
text lines emitted. Generally for comments: one mapping at the cursor line with
column `(indentOf d).length`, then the line advances by `1 + (embedded newlines)`.
Concretely, a comment containing one embedded newline advances the cursor by 2
lines (the sibling's mapping lands on line 3, the final cursor on line 4), and a
declaration nested in a rule gets column 2 (= one indent level). -/
theorem destination_tracking_accounting :
    (∀ (v : String) (mp : List Mapping) (d : Nat) (st : SerState) (loc : Location),
        st.location = some loc →
        stringify (AstNode.comment v mp) d st =
          (indentOf d ++ "/*" ++ v ++ "*/\n",
           { st with
               emitted := st.emitted ++
                 [⟨none, some ⟨⟨loc.line, (indentOf d).length⟩,
                               ⟨loc.line, (indentOf d).length⟩⟩⟩],
               location := some ⟨loc.line + (1 + countNl v), loc.column⟩ }))
    ∧ (toCss [AstNode.comment "a\nb" [], AstNode.declaration "color" (some "red") false []] true)
      = ("/*a\nb*/\ncolor: red;\n",
         ⟨[], [], some ⟨4, 0⟩,
          [⟨none, some ⟨⟨1, 0⟩, ⟨1, 0⟩⟩⟩, ⟨none, some ⟨⟨3, 0⟩, ⟨3, 0⟩⟩⟩]⟩)
    ∧ ((toCss [AstNode.rule ".a" [AstNode.declaration "color" (some "red") false []] []] true).2)
      = ⟨[], [], some ⟨4, 0⟩,
         [⟨none, some ⟨⟨1, 0⟩, ⟨1, 0⟩⟩⟩, ⟨none, some ⟨⟨2, 2⟩, ⟨2, 2⟩⟩⟩]⟩ := by
  refine ⟨?_, rfl, rfl⟩
  intro v mp d st loc hloc
  obtain ⟨ar, seen, lo, em⟩ := st
  have hlo : lo = some loc := hloc
  subst hlo
  rfl

/-- C7 witness: the comment conjunct instantiated at depth 1, cursor at line 5:
one mapping with a zero-width destination at line 5, column 2, and the cursor
advanced to line 7 (the value holds one embedded newline). -/
theorem destination_tracking_accounting_witness :
    ((⟨[], [], some ⟨5, 0⟩, []⟩ : SerState)).location = some ⟨5, 0⟩
    ∧ stringify (AstNode.comment "x\ny" []) 1 ⟨[], [], some ⟨5, 0⟩, []⟩
      = ("  /*x\ny*/\n", ⟨[], [], some ⟨7, 0⟩, [⟨none, some ⟨⟨5, 2⟩, ⟨5, 2⟩⟩⟩]⟩) :=
  ⟨rfl,
   by
     have hgen :=
       destination_tracking_accounting.1 "x\ny" [] 1 ⟨[], [], some ⟨5, 0⟩, []⟩ ⟨5, 0⟩ rfl
     rw [hgen]
     rfl⟩

/-- C8. A declaration whose property is the sentinel `--tw-sort`, or whose value
is absent, emits nothing and leaves the serializer state untouched; every other
declaration serializes as `<indent><property>: <value>;` with the `!important`
suffix directly before the `;` (no space) exactly when `important` is true. -/
theorem declaration_serialization :
    (∀ (v : Option String) (imp : Bool) (mp : List Mapping) (d : Nat) (st : SerState),
        stringify (AstNode.declaration "--tw-sort" v imp mp) d st = ("", st))
    ∧ (∀ (p : String) (imp : Bool) (mp : List Mapping) (d : Nat) (st : SerState),
        stringify (AstNode.declaration p none imp mp) d st = ("", st))
    ∧ (∀ (p v : String) (imp : Bool) (mp : List Mapping) (d : Nat) (st : SerState),
        p ≠ "--tw-sort" →
        (stringify (AstNode.declaration p (some v) imp mp) d st).1 =
          indentOf d ++ p ++ ": " ++ v ++ (if imp then "!important" else "") ++ ";\n")
    ∧ (toCss [AstNode.declaration "color" (some "red") true []] false).1
      = "color: red!important;\n" := by
  refine ⟨?_, ?_, ?_, rfl⟩
  · intro v imp mp d st
    cases v with
    | none => rfl
    | some v => simp [stringify]
  · intro p imp mp d st
    rfl
  · intro p v imp mp d st hp
    simp [stringify, hp]

/-- C8 witness: the general serialization shape instantiated at `color: red`
(not important) at depth 3. -/
theorem declaration_serialization_witness :
    ("color" : String) ≠ "--tw-sort"
    ∧ (stringify (AstNode.declaration "color" (some "red") false []) 3 ⟨[], [], none, []⟩).1
      = indentOf 3 ++ "color" ++ ": " ++ "red" ++ (if false then "!important" else "") ++ ";\n" :=
  ⟨by decide,
   declaration_serialization.2.2.1 "color" "red" false [] 3 ⟨[], [], none, []⟩ (by decide)⟩

mutual

theorem stringify_noloc (n : AstNode) (d : Nat) (st : SerState) (h : st.location = none) :
    (stringify n d st).2.location = none ∧ (stringify n d st).2.emitted = st.emitted := by
  cases n with
  | rule sel ch m =>
    simp only [stringify]
    split
    · simp [h]
    · split
      · exact stringifyAll_noloc ch d st h
      · split
        · simp [recordMapping, advanceLines, h]
        · split
          · simp [h]
          · have key : ∀ st2 : SerState, st2.location = none → st2.emitted = st.emitted →
                (advanceLines (stringifyAll ch (d + 1)
                    (advanceLines (recordMapping st2 (indentOf d).length) 1)).2 1).location = none
                ∧ (advanceLines (stringifyAll ch (d + 1)
                    (advanceLines (recordMapping st2 (indentOf d).length) 1)).2 1).emitted
                    = st.emitted := by
              intro st2 h2 h2e
              have hrec : recordMapping st2 (indentOf d).length = st2 := by
                simp [recordMapping, h2]
              have hadv : advanceLines st2 1 = st2 := by simp [advanceLines, h2]
              rw [hrec, hadv]
              obtain ⟨ha, hb⟩ := stringifyAll_noloc ch (d + 1) st2 h2
              have hadv2 : advanceLines (stringifyAll ch (d + 1) st2).2 1
                  = (stringifyAll ch (d + 1) st2).2 := by
                simp [advanceLines, ha]
              rw [hadv2]
              exact ⟨ha, hb.trans h2e⟩
            by_cases hc : (firstCharIs sel '@' && startsWithStr sel "@property " && d == 0) = true
            · simp only [if_pos hc]
              exact key _ h rfl
            · simp only [if_neg hc]
              exact key st h rfl
  | comment v m =>
    simp [stringify, recordMapping, advanceLines, h]
  | declaration p v i m =>
    cases v with
    | none => simp [stringify, h]
    | some v =>
      by_cases hp : p = "--tw-sort"
      · simp [stringify, hp, h]
      · simp [stringify, hp, recordMapping, advanceLines, h]

theorem stringifyAll_noloc (ns : List AstNode) (d : Nat) (st : SerState)
    (h : st.location = none) :
    (stringifyAll ns d st).2.location = none
      ∧ (stringifyAll ns d st).2.emitted = st.emitted := by
  cases ns with
  | nil => exact ⟨h, rfl⟩
  | cons n rest =>
    simp only [stringifyAll]
    obtain ⟨h1, h2⟩ := stringify_noloc n d st h
    obtain ⟨h3, h4⟩ := stringifyAll_noloc rest d (stringify n d st).2 h1
    exact ⟨h3, h4.trans h2⟩

end

theorem stripList_append (a b : List AstNode) :
    stripList (a ++ b) = stripList a ++ stripList b := by
  induction a with
  | nil => rfl
  | cons n rest ih => simp [stripList, ih]

theorem stripList_append_rev (a b : List AstNode) :
    stripList a ++ stripList b = stripList (a ++ b) :=
  (stripList_append a b).symm

theorem stripList_isEmpty (ns : List AstNode) : (stripList ns).isEmpty = ns.isEmpty := by
  cases ns <;> rfl

theorem stripState_atRoots (st : SerState) : (stripState st).atRoots = stripList st.atRoots :=
  rfl

theorem stripState_seen (st : SerState) :
    (stripState st).seenAtProperties = st.seenAtProperties := rfl

theorem stripState_loc (st : SerState) : (stripState st).location = st.location := rfl

theorem stripState_emitted (st : SerState) : (stripState st).emitted = st.emitted := rfl

theorem mk_stripState (a : List AstNode) (b : List String) (c : Option Location)
    (d : List Mapping) : (⟨stripList a, b, c, d⟩ : SerState) = stripState ⟨a, b, c, d⟩ := rfl

theorem recordMapping_strip (st : SerState) (k : Nat) :
    recordMapping (stripState st) k = stripState (recordMapping st k) := by
  cases hl : st.location <;> simp [recordMapping, stripState, hl]

theorem advanceLines_strip (st : SerState) (k : Nat) :
    advanceLines (stripState st) k = stripState (advanceLines st k) := by
  cases hl : st.location <;> simp [advanceLines, stripState, hl]

mutual

theorem stringify_strip (n : AstNode) (d : Nat) (st : SerState) :
    stringify (stripNode n) d (stripState st)
      = ((stringify n d st).1, stripState (stringify n d st).2) := by
  cases n with
  | rule sel ch m =>
    by_cases h1 : sel = "@at-root"
    · simp [stringify, stripNode, h1, stripState_atRoots, stripState_seen, stripState_loc,
        stripState_emitted, stripList_append_rev, mk_stripState]
    · by_cases h2 : sel = "@tailwind utilities"
      · have hmain := stringifyAll_strip ch d st
        simp [stringify, stripNode, h1, h2, hmain]
      · by_cases h3 : (firstCharIs sel '@' && ch.isEmpty) = true
        · have h3' : (firstCharIs sel '@' && (stripList ch).isEmpty) = true := by
            rw [stripList_isEmpty]; exact h3
          simp at h3 h3'
          simp [stringify, stripNode, h1, h2, h3, h3', stripList,
            recordMapping_strip, advanceLines_strip]
        · have h3' : ¬ (firstCharIs sel '@' && (stripList ch).isEmpty) = true := by
            rw [stripList_isEmpty]; exact h3
          simp at h3 h3'
          by_cases hfc : firstCharIs sel '@' = true
          · have hch : ¬ ch = [] := h3 hfc
            have hch' : ¬ stripList ch = [] := h3' hfc
            by_cases hsw : startsWithStr sel "@property " = true
            · by_cases hd0 : d = 0
              · subst hd0
                by_cases hmem : sel ∈ st.seenAtProperties
                · simp [stringify, stripNode, h1, h2, hfc, hch, hch', hsw, hmem,
                    stripState_seen]
                · have hrec := stringifyAll_strip ch 1
                    (advanceLines (recordMapping
                      { st with seenAtProperties := sel :: st.seenAtProperties }
                      (indentOf 0).length) 1)
                  simp [stringify, stripNode, h1, h2, hfc, hch, hch', hsw, hmem,
                    stripState_seen, stripState_atRoots, stripState_loc, stripState_emitted,
                    mk_stripState, recordMapping_strip, advanceLines_strip, hrec]
              · have hrec := stringifyAll_strip ch (d + 1)
                  (advanceLines (recordMapping st (indentOf d).length) 1)
                simp [stringify, stripNode, h1, h2, hfc, hch, hch', hsw, hd0,
                  stripState_seen, stripState_atRoots, stripState_loc, stripState_emitted,
                  mk_stripState, recordMapping_strip, advanceLines_strip, hrec]
            · have hrec := stringifyAll_strip ch (d + 1)
                (advanceLines (recordMapping st (indentOf d).length) 1)
              simp [stringify, stripNode, h1, h2, hfc, hch, hch', hsw,
                stripState_seen, stripState_atRoots, stripState_loc, stripState_emitted,
                mk_stripState, recordMapping_strip, advanceLines_strip, hrec]
          · have hrec := stringifyAll_strip ch (d + 1)
              (advanceLines (recordMapping st (indentOf d).length) 1)
            simp [stringify, stripNode, h1, h2, hfc,
              stripState_seen, stripState_atRoots, stripState_loc, stripState_emitted,
              mk_stripState, recordMapping_strip, advanceLines_strip, hrec]
  | comment v m =>
    simp [stringify, stripNode, recordMapping_strip, advanceLines_strip]
  | declaration p v i m =>
    cases v with
    | none => rfl
    | some v =>
      by_cases hp : p = "--tw-sort"
      · simp [stringify, stripNode, hp]
      · simp [stringify, stripNode, hp, recordMapping_strip, advanceLines_strip]

theorem stringifyAll_strip (ns : List AstNode) (d : Nat) (st : SerState) :
    stringifyAll (stripList ns) d (stripState st)
      = ((stringifyAll ns d st).1, stripState (stringifyAll ns d st).2) := by
  cases ns with
  | nil => rfl
  | cons n rest =>
    simp only [stripList, stringifyAll]
    rw [stringify_strip n d st]
    rw [stringifyAll_strip rest d (stringify n d st).2]

end

/-- C9. Serializing with tracking disabled appends no mappings (the `emitted`
record stays empty), and the output text does not depend on the nodes' `mappings`
fields — the only node state `toCss` ever mutates. Together with the fact,
definitional in `toCss`, that the `@property` dedup set and the `@at-root` hoist
buffer are initialized fresh inside every invocation and discarded with its
state, a second `toCss` call on the same (unchanged) tree reproduces the first
call's text exactly. -/
theorem toCss_reserialization_stable (ast : List AstNode) :
    (toCss ast false).2.emitted = []
    ∧ (toCss (stripList ast) false).1 = (toCss ast false).1 := by
  constructor
  · obtain ⟨h1, h2⟩ := stringifyAll_noloc ast 0 ⟨[], [], none, []⟩ rfl
    obtain ⟨h3, h4⟩ := stringifyAll_noloc
      (stringifyAll ast 0 ⟨[], [], none, []⟩).2.atRoots 0
      (stringifyAll ast 0 ⟨[], [], none, []⟩).2 h1
    simpa [toCss] using h4.trans h2
  · have e0 : (⟨[], [], none, []⟩ : SerState) = stripState ⟨[], [], none, []⟩ := rfl
    have hA := stringifyAll_strip ast 0 ⟨[], [], none, []⟩
    have hB := stringifyAll_strip (stringifyAll ast 0 ⟨[], [], none, []⟩).2.atRoots 0
      (stringifyAll ast 0 ⟨[], [], none, []⟩).2
    simp only [toCss, Bool.false_eq_true, if_false]
    rw [e0, hA]
    simp [stripState_atRoots, hB]
    rfl


end CssAst
